import Mathlib

/-!
Verification of the BEWallet core (Elements/Liquid confidential wallet) against its
natural-language specification.  The Rust sources under `src/` (`interface.rs`,
`liquidex.rs`, `network.rs`) are shallowly embedded: byte strings are `List Nat`,
machine integers are `Nat` (with explicit bounds where overflow matters), fallible
code returns `Option`, panics are modelled as `none`, and the external cryptographic
crates (`secp256k1_zkp`, `aes_gcm_siv`, the hash crates) are abstracted as an
operation record `Crypto` carrying the contracts those crates provide.
-/

set_option autoImplicit false

namespace BEWallet

/-- Rust `ElementsNetwork` (src/network.rs): the two supported networks. -/
inductive ElementsNetwork
  | Liquid
  | ElementsRegtest
deriving DecidableEq

/-- Rust `Config` (src/network.rs), restricted to the fields the embedded functions read. -/
structure Config where
  development : Bool
  liquid : Bool
  mainnet : Bool
deriving DecidableEq

/-- Rust `Config::network` (src/network.rs): `(true, _)` gives Liquid, `(false, true)`
gives ElementsRegtest, anything else panics (`none` in the model). -/
def Config.network (c : Config) : Option ElementsNetwork :=
  match c.mainnet, c.development with
  | true, _ => some ElementsNetwork.Liquid
  | false, true => some ElementsNetwork.ElementsRegtest
  | false, false => none

/-- Rust `elements::bitcoin::network::constants::Network` tags. -/
inductive BtcNetwork
  | Bitcoin
  | Testnet
  | Signet
  | Regtest
deriving DecidableEq

/-- One BIP32 derivation step (`ChildNumber`): hardened flag and index. -/
structure ChildNumber where
  hardened : Bool
  index : Nat
deriving DecidableEq

/-- The observable result of `mnemonic2xprv` (src/interface.rs): which network constant the
master-key constructor `ExtendedPrivKey::new_master` received, the seed it was given
(bip39 seed derivation is an external crate, kept as an opaque code), and the account
derivation path handed to `derive_priv`. -/
structure XprvModel where
  network : BtcNetwork
  seed : Nat
  path : List ChildNumber
deriving DecidableEq

/-- Rust `mnemonic2xprv` (src/interface.rs 55-75): always constructs the master key with
`Network::Testnet`, then derives at `m/49'/coin'/0'` with `coin = 1776` for Liquid and
`1` for ElementsRegtest.  `config.network()` panics on unsupported configs, modelled
as `none`. -/
def mnemonic2xprv (mnemonic : Nat) (config : Config) : Option XprvModel :=
  match config.network with
  | none => none
  | some net =>
    let coin : Nat :=
      match net with
      | ElementsNetwork.Liquid => 1776
      | ElementsNetwork.ElementsRegtest => 1
    some ⟨BtcNetwork.Testnet, mnemonic, [⟨true, 49⟩, ⟨true, coin⟩, ⟨true, 0⟩]⟩

/-- Rust `make_rangeproof_message` (src/interface.rs 105-115): a 64-byte message, the asset
id in the first 32 bytes and the asset blinder in the last 32.  The Rust fixed-size
arrays mean both arguments are exactly 32 bytes; theorems carry that as hypotheses. -/
def make_rangeproof_message (asset bf : List Nat) : List Nat :=
  asset ++ bf

/-- Rust `parse_rangeproof_message` (src/interface.rs 118-128): rejects messages shorter
than 64 bytes, otherwise splits off the 32-byte asset id and the 32-byte blinder. -/
def parse_rangeproof_message (message : List Nat) : Option (List Nat × List Nat) :=
  if message.length < 64 then none
  else some (message.take 32, (message.drop 32).take 32)

/-- Rust `elements::confidential::Asset`: null, an explicit asset id, or a confidential
asset generator (a `Generator` point, kept as a `Nat` code). -/
inductive CAsset
  | null
  | explicit (id : Nat)
  | confidential (gen : Nat)
deriving DecidableEq

/-- Rust `elements::confidential::Value`: null, an explicit amount, or a Pedersen value
commitment (kept as a `Nat` code). -/
inductive CValue
  | null
  | explicit (amount : Nat)
  | confidential (comm : Nat)
deriving DecidableEq

/-- Rust `elements::confidential::Nonce`: null, explicit 32 bytes, or a confidential nonce
(an ECDH public key, kept as its compressed byte representation). -/
inductive CNonce
  | null
  | explicit (bytes : List Nat)
  | confidential (pk : List Nat)
deriving DecidableEq

/-- Rust `elements::TxOut`, restricted to the fields the embedded functions read (witness
data is write-only in the code under study). -/
structure CTxOut where
  asset : CAsset
  value : CValue
  nonce : CNonce
  script_pubkey : List Nat
deriving DecidableEq

/-- Rust `elements::Transaction`, restricted to what the embedded functions read: each
input is its `previous_output` outpoint (a `Nat` code); outputs are `CTxOut`. -/
structure CTx where
  input : List Nat
  output : List CTxOut
deriving DecidableEq

/-- Rust `elements::TxOutSecrets`: the unblinded asset, asset blinding factor, value and
value blinding factor of an output. -/
structure TxOutSecrets where
  asset : Nat
  asset_bf : Nat
  value : Nat
  value_bf : Nat
deriving DecidableEq

/-- Abstract interface to the external cryptographic crates (`secp256k1_zkp`,
`aes_gcm_siv`, the hash functions) and to the repository's `utils::derive_blinder`.
The function fields are the operations the embedded code calls; the `Prop` fields are
the contracts of those crates that the proofs rely on: AES-GCM-SIV decryption inverts
encryption, parsing a compressed public key and re-serializing it reproduces the bytes,
and blinded asset generators are injective in the asset tag for a fixed blinder. -/
structure Crypto where
  genBlinded : Nat → Nat → Nat
  pedersen : Nat → Nat → Nat → Nat
  aesEnc : Nat → Nat → List Nat → List Nat
  aesDec : Nat → Nat → List Nat → Option (List Nat)
  pkFromSlice : List Nat → Option (List Nat)
  pkSerialize : List Nat → List Nat
  aesKey : Nat → List Nat → Nat
  aesNonceOf : Nat → Nat → Nat → Nat → List Nat → Nat
  deriveBlinderF : Nat → Nat → Nat → Bool → Nat
  hashOutpoint : Nat → Nat
  aes_roundtrip : ∀ k n m, m.length = 16 → aesDec k n (aesEnc k n m) = some m
  pk_roundtrip : ∀ bs pk, pkFromSlice bs = some pk → pkSerialize pk = bs
  gen_inj : ∀ a b t, genBlinded a t = genBlinded b t → a = b

/-- Modelled from the spec: `derive_blinder(master_blinding_key, hash, vout, is_asset)`
lives in the repository's `utils` module, which is not under `src/`.  Spec sections 4.8
and 4.9 use it as a deterministic blinder derivation from the master blinding key and a
hash; it is kept abstract as the `deriveBlinderF` field of `Crypto`. -/
def derive_blinder (c : Crypto) (mbk hash vout : Nat) (is_asset : Bool) : Nat :=
  c.deriveBlinderF mbk hash vout is_asset

/-- Rust `u32::MAX`, the sentinel vout used for maker-side blinders. -/
def u32MAX : Nat := 2 ^ 32 - 1

/-- Rust `liquidex_derive_asset_blinder` composed with `_liquidex_derive_blinder`
(src/liquidex.rs 162-193): hash the spent outpoint and derive with `vout = u32::MAX`.
`AssetBlindingFactor::from_slice` re-parses the same 32 bytes and is the identity on
codes. -/
def liquidex_derive_asset_blinder (c : Crypto) (mbk op : Nat) : Nat :=
  derive_blinder c mbk (c.hashOutpoint op) u32MAX true

/-- Rust `liquidex_derive_value_blinder` (src/liquidex.rs 195-201), as above with
`is_asset_blinder = false`. -/
def liquidex_derive_value_blinder (c : Crypto) (mbk op : Nat) : Nat :=
  derive_blinder c mbk (c.hashOutpoint op) u32MAX false

/-- Rust `_liquidex_aes_nonce` (src/liquidex.rs 216-243): requires the asset and value to
be confidential commitments and hashes the master blinding key, the spent outpoint, both
commitments and the script down to a 12-byte AES nonce (a `Nat` code here). -/
def liquidex_aes_nonce (c : Crypto) (mbk op : Nat) (asset : CAsset) (value : CValue)
    (script : List Nat) : Option Nat :=
  match asset, value with
  | CAsset.confidential g, CValue.confidential vc => some (c.aesNonceOf mbk op g vc script)
  | _, _ => none

/-- Little-endian byte encoding, `n` bytes (`u64::to_le_bytes` is `leBytesAux 8`). -/
def leBytesAux : Nat → Nat → List Nat
  | 0, _ => []
  | n + 1, v => v % 256 :: leBytesAux n (v / 256)

/-- Rust `u64::to_le_bytes`. -/
def leBytes8 (v : Nat) : List Nat := leBytesAux 8 v

/-- Little-endian decoding of a byte list. -/
def leDecodeAux : List Nat → Nat
  | [] => 0
  | b :: bs => b + 256 * leDecodeAux bs

/-- Rust `u64::from_le_bytes` applied to the first 8 bytes (`text[..8]`). -/
def leDecode8 (bs : List Nat) : Nat := leDecodeAux (bs.take 8)

/-- The rejection-sampling loop of `liquidex_blind` (src/liquidex.rs 300-313): each tape
entry stands for the 8 random bytes one iteration draws; the plaintext is the value in
little-endian followed by those bytes, the 32-byte AES-GCM-SIV ciphertext is prefixed
with `0x02`, and the first candidate that parses as a compressed public key is
serialized and returned.  The Rust loop is unbounded; the model returns `none` when the
tape is exhausted. -/
def liquidex_nonce_loop (c : Crypto) (key nonce value : Nat) :
    List (List Nat) → Option (List Nat)
  | [] => none
  | r :: rest =>
    let text := leBytes8 value ++ r
    let ct := c.aesEnc key nonce text
    match c.pkFromSlice (2 :: ct) with
    | some pk => some (c.pkSerialize pk)
    | none => liquidex_nonce_loop c key nonce value rest

/-- Rust `liquidex_blind` (src/liquidex.rs 248-323): requires exactly one input and one
output with explicit asset and value; derives deterministic blinders from the spent
outpoint, replaces the output's asset and value with their commitments, smuggles the
value through the nonce field via the AES loop, and returns the output secrets. -/
def liquidex_blind (c : Crypto) (mbk : Nat) (tx : CTx) (tape : List (List Nat)) :
    Option (CTx × TxOutSecrets) :=
  match tx.input, tx.output with
  | [op], [out] =>
    match out.asset, out.value with
    | CAsset.explicit asset, CValue.explicit value =>
      let asset_blinder := liquidex_derive_asset_blinder c mbk op
      let value_blinder := liquidex_derive_value_blinder c mbk op
      let asset_generator := c.genBlinded asset asset_blinder
      let value_commitment := c.pedersen value value_blinder asset_generator
      let key := c.aesKey mbk out.script_pubkey
      match liquidex_aes_nonce c mbk op (CAsset.confidential asset_generator)
          (CValue.confidential value_commitment) out.script_pubkey with
      | none => none
      | some aes_nonce =>
        match liquidex_nonce_loop c key aes_nonce value tape with
        | none => none
        | some nonce_commitment =>
          match c.pkFromSlice nonce_commitment with
          | none => none
          | some pk =>
            some (⟨[op], [⟨CAsset.confidential asset_generator,
                           CValue.confidential value_commitment,
                           CNonce.confidential pk, out.script_pubkey⟩]⟩,
                  ⟨asset, asset_blinder, value, value_blinder⟩)
    | _, _ => none
  | _, _ => none

/-- Rust `liquidex_unblind` (src/liquidex.rs 325-423): checks the candidate `vout` against
both the output and the input counts, requires output `vout` to be fully confidential,
re-derives the deterministic blinders and AES material from `tx.input[vout]`, decrypts
the value from the nonce commitment, re-checks the value commitment, and searches the
caller's asset set (modelled as a list, searched in order) for one whose blinded
generator matches the output's. -/
def liquidex_unblind (c : Crypto) (mbk : Nat) (tx : CTx) (vout : Nat)
    (assets : List Nat) : Option TxOutSecrets :=
  if vout + 1 > tx.output.length ∨ vout + 1 > tx.input.length then none
  else
    match tx.output.get? vout, tx.input.get? vout with
    | some out, some op =>
      match out.asset, out.value, out.nonce with
      | CAsset.confidential tx_asset_generator, CValue.confidential tx_value_commitment,
        CNonce.confidential nonce_pk =>
        let asset_blinder := liquidex_derive_asset_blinder c mbk op
        let value_blinder := liquidex_derive_value_blinder c mbk op
        let key := c.aesKey mbk out.script_pubkey
        match liquidex_aes_nonce c mbk op (CAsset.confidential tx_asset_generator)
            (CValue.confidential tx_value_commitment) out.script_pubkey with
        | none => none
        | some aes_nonce =>
          let text := (c.pkSerialize nonce_pk).drop 1
          match c.aesDec key aes_nonce text with
          | none => none
          | some plain =>
            if plain.length < 8 then none
            else
              let value := leDecode8 plain
              let value_commitment := c.pedersen value value_blinder tx_asset_generator
              if value_commitment ≠ tx_value_commitment then none
              else
                match assets.find?
                    (fun cand => c.genBlinded cand asset_blinder == tx_asset_generator) with
                | some asset => some ⟨asset, asset_blinder, value, value_blinder⟩
                | none => none
      | _, _, _ => none
    | _, _ => none

/-- Rust `LiquidexProposal` (src/liquidex.rs 75-82).  The `tx` field is a hex string in
Rust, parsed by `transaction()` through the external `elements::encode` codec; the model
stores the parsed transaction.  `inputs`/`outputs` carry the declared secrets
(`LiquidexTxOutSecrets` converts field names only). -/
structure LiquidexProposal where
  version : Nat
  tx : CTx
  inputs : List TxOutSecrets
  outputs : List TxOutSecrets
deriving DecidableEq

/-- Rust `LiquidexProposal::verify_output_commitment` (src/liquidex.rs 114-159): requires
one transaction input, one transaction output, one declared input secret and one declared
output secret; requires output 0's asset and value to be confidential; recomputes the
asset generator and Pedersen commitment from the declared secrets and compares them with
transaction output 0, returning the declared secrets on success and an error (`none`)
otherwise. -/
def verify_output_commitment (c : Crypto) (p : LiquidexProposal) : Option TxOutSecrets :=
  if p.tx.input.length ≠ 1 ∨ p.tx.output.length ≠ 1 ∨
      p.inputs.length ≠ 1 ∨ p.outputs.length ≠ 1 then none
  else
    match p.outputs.get? 0, p.tx.output.get? 0 with
    | some output, some txo =>
      match txo.asset, txo.value with
      | CAsset.confidential tx_asset_generator, CValue.confidential tx_value_commitment =>
        let asset_generator := c.genBlinded output.asset output.asset_bf
        let value_commitment := c.pedersen output.value output.value_bf asset_generator
        if asset_generator ≠ tx_asset_generator ∨ value_commitment ≠ tx_value_commitment
        then none
        else some output
      | _, _ => none
    | _, _ => none

/-- Rust `elements::TxOut::is_fee` (external `elements` crate): empty script with explicit
asset and value. -/
def CTxOut.isFee (o : CTxOut) : Bool :=
  o.script_pubkey.isEmpty &&
    (match o.asset with | CAsset.explicit _ => true | _ => false) &&
    (match o.value with | CValue.explicit _ => true | _ => false)

/-- The explicit (asset, amount) pair of an output, when both are explicit. -/
def explicitPair? (o : CTxOut) : Option (Nat × Nat) :=
  match o.asset, o.value with
  | CAsset.explicit a, CValue.explicit v => some (a, v)
  | _, _ => none

/-- Rust `outputs` (src/liquidex.rs 425-443) builds a per-asset sum over the transaction
outputs, output 0 contributing the maker secrets.  `lqOutVal` is the sum that map holds
at asset `a`; non-first outputs must be explicit (`lqOutputsOk`), a panic otherwise. -/
def lqOutVal (mo : TxOutSecrets) (tx : CTx) (a : Nat) : Nat :=
  match tx.output with
  | [] => 0
  | _ :: rest =>
    (if mo.asset = a then mo.value else 0) +
      (rest.map (fun o =>
        match explicitPair? o with
        | some (b, v) => if b = a then v else 0
        | none => 0)).sum

/-- The key set of the Rust `outputs` map: the maker asset plus the assets of the explicit
non-first outputs. -/
def lqOutSupport (mo : TxOutSecrets) (tx : CTx) : List Nat :=
  match tx.output with
  | [] => []
  | _ :: rest => mo.asset :: rest.filterMap (fun o => (explicitPair? o).map Prod.fst)

/-- No panic in Rust `outputs`: every non-first output is fully explicit. -/
def lqOutputsOk (tx : CTx) : Bool :=
  (tx.output.drop 1).all (fun o => (explicitPair? o).isSome)

/-- Rust `inputs` (src/liquidex.rs 445-460) builds a per-asset sum over the transaction
inputs, input 0 contributing the maker secrets and the rest their unblinded records.
`lqInVal` is the sum that map holds at asset `a`; missing unblinded data is a panic
(`lqInputsOk`). -/
def lqInVal (mi : TxOutSecrets) (tx : CTx) (ub : Nat → Option TxOutSecrets) (a : Nat) : Nat :=
  match tx.input with
  | [] => 0
  | _ :: rest =>
    (if mi.asset = a then mi.value else 0) +
      (rest.map (fun op =>
        match ub op with
        | some u => if u.asset = a then u.value else 0
        | none => 0)).sum

/-- The key set of the Rust `inputs` map. -/
def lqInSupport (mi : TxOutSecrets) (tx : CTx) (ub : Nat → Option TxOutSecrets) : List Nat :=
  match tx.input with
  | [] => []
  | _ :: rest => mi.asset :: rest.filterMap (fun op => (ub op).map TxOutSecrets.asset)

/-- No panic in Rust `inputs`: every non-first input has an unblinded record. -/
def lqInputsOk (tx : CTx) (ub : Nat → Option TxOutSecrets) : Bool :=
  (tx.input.drop 1).all (fun op => (ub op).isSome)

/-- Rust `liquidex_changes` (src/liquidex.rs 499-526).  For every asset among the inputs
it computes `inputs − outputs` by `u64` subtraction (a panic on underflow), subtracts the
estimated fee for the policy asset (again a panic on underflow), and emits a change entry
when the residual exceeds 0 (non-policy) or `DUST_VALUE` (policy); finally it asserts
that every output asset occurred among the inputs.  Panics — including the helper panics
of `outputs`/`inputs` — are modelled as `none`; the success value is the change map as a
function from asset to optional amount.  `DUST_VALUE` is a constant of the repository's
`transaction` module, which is not under `src/`, and is taken as the `dust` parameter. -/
def liquidex_changes (mi mo : TxOutSecrets) (tx : CTx) (estimated_fee policy dust : Nat)
    (ub : Nat → Option TxOutSecrets) : Option (Nat → Option Nat) :=
  if ¬ (lqOutputsOk tx = true ∧ lqInputsOk tx ub = true) then none
  else if (lqInSupport mi tx ub).any
      (fun a => decide (lqInVal mi tx ub a < lqOutVal mo tx a)) then none
  else if policy ∈ lqInSupport mi tx ub ∧
      lqInVal mi tx ub policy - lqOutVal mo tx policy < estimated_fee then none
  else if (lqOutSupport mo tx).any
      (fun a => decide (a ∉ lqInSupport mi tx ub)) then none
  else some (fun a =>
    if a ∈ lqInSupport mi tx ub then
      if a = policy then
        if dust < lqInVal mi tx ub a - lqOutVal mo tx a - estimated_fee
        then some (lqInVal mi tx ub a - lqOutVal mo tx a - estimated_fee) else none
      else
        if 0 < lqInVal mi tx ub a - lqOutVal mo tx a
        then some (lqInVal mi tx ub a - lqOutVal mo tx a) else none
    else none)

/-- Rust `liquidex_fee` (src/liquidex.rs 528-539): asserts the transaction has no fee
output yet, then returns the policy-asset input sum minus the policy-asset output sum,
unwrapping both map entries (a panic when the policy asset is absent from either) and
subtracting in `u64` (a panic on underflow).  Panics are modelled as `none`. -/
def liquidex_fee (mi mo : TxOutSecrets) (tx : CTx) (policy : Nat)
    (ub : Nat → Option TxOutSecrets) : Option Nat :=
  if tx.output.any CTxOut.isFee then none
  else if ¬ (lqOutputsOk tx = true ∧ lqInputsOk tx ub = true) then none
  else if ¬ (policy ∈ lqInSupport mi tx ub ∧ policy ∈ lqOutSupport mo tx) then none
  else if lqInVal mi tx ub policy < lqOutVal mo tx policy then none
  else some (lqInVal mi tx ub policy - lqOutVal mo tx policy)

/-- Modelled from the spec: one addressee of a `CreateTransactionOpt` (crate `model`, not
under `src/`): a recipient address carrying network parameters (`address().params`, a
`Nat` code here), an amount in satoshi (`satoshi()`), and an asset (`asset()`). -/
structure Addressee where
  params : Nat
  satoshi : Nat
  asset : Nat
deriving DecidableEq

/-- The error kinds the eager validation of `create_tx` can return. -/
inductive CreateTxError
  | InvalidAddress
  | EmptyAddressees
  | InvalidAmount
deriving DecidableEq

/-- The eager request validation at the top of `WalletCtx::create_tx`
(src/interface.rs 312-339), in source order: any addressee whose address parameters
differ from the wallet's gives `InvalidAddress`; an empty addressee list gives
`EmptyAddressees`; any zero amount gives `InvalidAmount`; any amount at most
`DUST_VALUE` of the policy asset gives `InvalidAmount`.  `wparams` is the wallet's
`address_params(config.network())` code, `dust` the `DUST_VALUE` constant of the
repository's `transaction` module (not under `src/`).  `none` means validation passed
and the builder proceeds; on `some` error the function returns before constructing
anything. -/
def create_tx_validate (wparams policy dust : Nat) (addressees : List Addressee) :
    Option CreateTxError :=
  if addressees.any (fun a => decide (a.params ≠ wparams)) then some CreateTxError.InvalidAddress
  else if addressees.isEmpty then some CreateTxError.EmptyAddressees
  else if addressees.any (fun a => decide (a.satoshi = 0)) then some CreateTxError.InvalidAmount
  else if addressees.any (fun a => decide (a.satoshi ≤ dust ∧ a.asset = policy))
  then some CreateTxError.InvalidAmount
  else none

/-- A UTXO as the coin-selection loop sees it (`UnblindedTXO`): the outpoint, the output's
script_pubkey, and the unblinded asset and value (all `Nat` codes). -/
structure SelUtxo where
  outpoint : Nat
  script : Nat
  asset : Nat
  value : Nat
deriving DecidableEq

/-- Modelled from the spec: `needs` of the repository's `transaction` module (not under
`src/`), spec section 4.4: aggregate the required output amounts per asset, charge the
estimated fee to the policy asset, subtract the aggregated selected-input values per
asset, and keep the positive residuals in a deterministic order in which the selection
loop's `pop` (which takes the vector's last element) processes the policy asset last —
here the policy residual, when present, is the first list entry.  `estFee` is the
current fee estimate (spec: `ceil(vsize · fee_rate)`), supplied by the caller. -/
def needsSpec (outs : List (Nat × Nat)) (selected : List SelUtxo) (policy : Nat)
    (estFee : Nat) : List (Nat × Nat) :=
  let assets := (policy :: outs.map Prod.fst).dedup
  let required := fun a =>
    (outs.map (fun o => if o.1 = a then o.2 else 0)).sum + (if a = policy then estFee else 0)
  let covered := fun a => (selected.map (fun u => if u.asset = a then u.value else 0)).sum
  assets.filterMap (fun a =>
    if covered a < required a then some (a, required a - covered a) else none)

/-- Result of the selection loop: the selected inputs in selection order, the
`InsufficientFunds` error, or fuel exhaustion (a model artifact; the Rust loop
terminates because every round consumes a fresh UTXO). -/
inductive SelResult
  | ok (selected : List SelUtxo)
  | insufficientFunds
  | fuelOut
deriving DecidableEq

/-- The UTXO the loop picks from the candidates: the source sorts ascending by value with
a stable sort and pops the last element, i.e. the last entry attaining the maximal
value. -/
def pickLargest : List SelUtxo → Option SelUtxo
  | [] => none
  | u :: rest =>
    match pickLargest rest with
    | none => some u
    | some w => if u.value > w.value then some u else some w

/-- STEP 2 of `WalletCtx::create_tx` (src/interface.rs 369-405): the coin-selection loop.
Each round recomputes the needs from the requested outputs `outs` and the inputs
selected so far; if empty the loop succeeds, otherwise it pops the last needed asset,
filters the UTXOs of that asset whose outpoint is not in `used` — the set the source
fills with **outpoints**, not scripts — takes the largest or fails with
`InsufficientFunds`, marks it used and adds it as an input.  `estFeeFn` abstracts the
estimated fee of the transaction built so far. -/
def selectLoop (policy : Nat) (estFeeFn : List SelUtxo → Nat) (outs : List (Nat × Nat))
    (utxos : List SelUtxo) : Nat → List Nat → List SelUtxo → SelResult
  | 0, _, _ => SelResult.fuelOut
  | fuel + 1, used, selected =>
    match (needsSpec outs selected policy (estFeeFn selected)).getLast? with
    | none => SelResult.ok selected
    | some (asset, _) =>
      let asset_utxos := utxos.filter
        (fun u => u.asset == asset && !(used.contains u.outpoint))
      match pickLargest asset_utxos with
      | none => SelResult.insufficientFunds
      | some u => selectLoop policy estFeeFn outs utxos fuel (u.outpoint :: used)
          (selected ++ [u])

/-- A concrete instantiation of the `Crypto` interface used to evaluate the embedded
functions on closed inputs: generators and commitments are pairing codes, AES appends a
16-byte tag, public keys are their own 33-byte serialization. -/
def toyCrypto : Crypto where
  genBlinded a t := Nat.pair a t
  pedersen v r g := Nat.pair v (Nat.pair r g)
  aesEnc _ _ m := m ++ List.replicate 16 0
  aesDec _ _ ctext := if ctext.length = 32 then some (ctext.take 16) else none
  pkFromSlice bs := if bs.length = 33 then some bs else none
  pkSerialize bs := bs
  aesKey k s := k + s.length
  aesNonceOf mbk op g vc s := mbk + op + g + vc + s.length
  deriveBlinderF _ _ _ is_asset := if is_asset then 3 else 4
  hashOutpoint op := op
  aes_roundtrip := by
    intro k n m hm
    have hlen : (m ++ List.replicate 16 0).length = 32 := by
      simp [hm]
    simp only [hlen, if_pos]
    rw [List.take_left' hm]
  pk_roundtrip := by
    intro bs pk h
    by_cases hb : bs.length = 33
    · simp only [hb, if_pos] at h
      simpa using h.symm
    · simp [hb] at h
  gen_inj := by
    intro a b t h
    have := congrArg Nat.unpair h
    simpa using this

/-- Concrete maker transaction mirroring `test_liquidex_roundtrip`: one input, one output
with explicit asset 1 and value 10, script `OP_1` (byte 0x51 = 81). -/
def c2tx : CTx := ⟨[0], [⟨CAsset.explicit 1, CValue.explicit 10, CNonce.null, [81]⟩]⟩

/-- One draw of 8 random bytes for the rejection-sampling loop. -/
def c2tape : List (List Nat) := [[0, 0, 0, 0, 0, 0, 0, 0]]

/-- The nonce commitment `liquidex_blind` stores for `c2tx` under `toyCrypto`. -/
def c2pk : List Nat := 2 :: 10 :: List.replicate 31 0

/-- The blinded transaction `liquidex_blind` returns for `c2tx` under `toyCrypto`. -/
def c2tx' : CTx :=
  ⟨[0], [⟨CAsset.confidential 10, CValue.confidential 10826,
          CNonce.confidential c2pk, [81]⟩]⟩

/-- The output secrets `liquidex_blind` returns for `c2tx` under `toyCrypto`. -/
def c2secrets : TxOutSecrets := ⟨1, 3, 10, 4⟩

/-- A transaction with one input but two outputs, output 1 fully confidential: input
count 1 is not greater than vout 1, so `liquidex_unblind` must reject vout 1. -/
def c9tx : CTx :=
  ⟨[5], [⟨CAsset.confidential 1, CValue.confidential 2, CNonce.confidential [2], [7]⟩,
         ⟨CAsset.confidential 3, CValue.confidential 4, CNonce.confidential [2], [8]⟩]⟩

/-- Two UTXOs of the policy asset sharing script 7 but with distinct outpoints 1 and 2. -/
def c1utxos : List SelUtxo := [⟨1, 7, 0, 600⟩, ⟨2, 7, 0, 600⟩]

/-- A single addressee whose address parameters (1) differ from the wallet's (0) and whose
amount is zero. -/
def c4bad : List Addressee := [⟨1, 0, 0⟩]

/-- Maker input secrets for the liquidex accounting examples: 100 units of asset 0. -/
def c5mi : TxOutSecrets := ⟨0, 0, 100, 0⟩

/-- Maker output secrets for the liquidex accounting examples: 10 units of asset 5. -/
def c5mo : TxOutSecrets := ⟨5, 0, 10, 0⟩

/-- Taker transaction for the liquidex accounting examples: maker input 11, taker input
12, the (blinded) maker output and one explicit output of 40 units of asset 0. -/
def c5tx : CTx :=
  ⟨[11, 12], [⟨CAsset.confidential 1, CValue.confidential 2, CNonce.null, [1]⟩,
              ⟨CAsset.explicit 0, CValue.explicit 40, CNonce.null, [2]⟩]⟩

/-- Unblinded records for `c5tx`: outpoint 12 holds 50 units of asset 5. -/
def c5ub : Nat → Option TxOutSecrets := fun op => if op = 12 then some ⟨5, 0, 50, 0⟩ else none

/-- Maker secrets whose policy-asset output sum (10) exceeds the input sum (5). -/
def c10mi : TxOutSecrets := ⟨0, 0, 5, 0⟩

/-- See `c10mi`. -/
def c10mo : TxOutSecrets := ⟨0, 0, 10, 0⟩

/-- A minimal taker transaction without a fee output: one maker input and the maker
output only. -/
def c10tx : CTx := ⟨[9], [⟨CAsset.confidential 1, CValue.confidential 2, CNonce.null, [1]⟩]⟩

/-- No non-first inputs, so no unblinded records are needed. -/
def c10ub : Nat → Option TxOutSecrets := fun _ => none

theorem leBytesAux_length (n v : Nat) : (leBytesAux n v).length = n := by
  induction n generalizing v with
  | zero => rfl
  | succ n ih => simp [leBytesAux, ih]

theorem leDecodeAux_leBytesAux (n v : Nat) : leDecodeAux (leBytesAux n v) = v % 256 ^ n := by
  induction n generalizing v with
  | zero => simp [leBytesAux, leDecodeAux, Nat.mod_one]
  | succ n ih =>
    rw [leBytesAux, leDecodeAux, ih, pow_succ', Nat.mod_mul]

theorem leDecode8_leBytes8 (v : Nat) (r : List Nat) (hv : v < 2 ^ 64) :
    leDecode8 (leBytes8 v ++ r) = v := by
  unfold leDecode8 leBytes8
  rw [List.take_left' (leBytesAux_length 8 v), leDecodeAux_leBytesAux]
  have h : (256 : Nat) ^ 8 = 2 ^ 64 := by norm_num
  rw [h]
  exact Nat.mod_eq_of_lt hv

/-- Claim C8: `Config::network()` returns Liquid whenever `mainnet` is true, returns
ElementsRegtest whenever `mainnet` is false and `development` is true, and is fatal (a
panic, modelled as `none`) in every other case. -/
theorem config_network_spec (c : Config) :
    c.network = if c.mainnet then some ElementsNetwork.Liquid
      else if c.development then some ElementsNetwork.ElementsRegtest else none := by
  rcases c with ⟨d, l, m⟩
  cases m <;> cases d <;> rfl

/-- Claim C7: for every mnemonic and every config whose network is supported,
`mnemonic2xprv` constructs the master extended private key with Testnet network
parameters regardless of the configured network, and derives the account key at
`m/49'/coin'/0'` with coin = 1776 when the network is Liquid (mainnet) and 1 when it is
ElementsRegtest. -/
theorem mnemonic2xprv_testnet_path (m : Nat) (c : Config)
    (h : c.mainnet = true ∨ c.development = true) :
    ∃ x, mnemonic2xprv m c = some x ∧ x.network = BtcNetwork.Testnet ∧
      x.path = [⟨true, 49⟩, ⟨true, if c.mainnet then 1776 else 1⟩, ⟨true, 0⟩] := by
  rcases c with ⟨d, l, mn⟩
  cases mn <;> cases d <;> simp_all [mnemonic2xprv, Config.network]

/-- Witness for C7 at the mainnet (Liquid) configuration. -/
theorem mnemonic2xprv_testnet_path_witness :
    ((Config.mk false true true).mainnet = true ∨
      (Config.mk false true true).development = true) ∧
    (∃ x, mnemonic2xprv 0 (Config.mk false true true) = some x ∧
      x.network = BtcNetwork.Testnet ∧
      x.path = [⟨true, 49⟩,
        ⟨true, if (Config.mk false true true).mainnet then 1776 else 1⟩, ⟨true, 0⟩]) :=
  ⟨Or.inl rfl, mnemonic2xprv_testnet_path 0 (Config.mk false true true) (Or.inl rfl)⟩

/-- Claim C6: `make_rangeproof_message` returns exactly 64 bytes, the asset id in the
first 32 and the blinder in the last 32; `parse_rangeproof_message` rejects every input
shorter than 64 bytes and inverts `make_rangeproof_message`. -/
theorem rangeproof_message_roundtrip (asset bf : List Nat)
    (ha : asset.length = 32) (hb : bf.length = 32) :
    (make_rangeproof_message asset bf).length = 64 ∧
    (make_rangeproof_message asset bf).take 32 = asset ∧
    (make_rangeproof_message asset bf).drop 32 = bf ∧
    parse_rangeproof_message (make_rangeproof_message asset bf) = some (asset, bf) ∧
    (∀ msg : List Nat, msg.length < 64 → parse_rangeproof_message msg = none) := by
  have htake : (asset ++ bf).take 32 = asset := List.take_left' ha
  have hdrop : (asset ++ bf).drop 32 = bf := List.drop_left' ha
  have hbtake : bf.take 32 = bf := by rw [← hb]; exact List.take_length bf
  refine ⟨by simp [make_rangeproof_message, ha, hb], htake, hdrop, ?_, ?_⟩
  · show parse_rangeproof_message (asset ++ bf) = some (asset, bf)
    unfold parse_rangeproof_message
    rw [if_neg (by simp [ha, hb]), htake, hdrop, hbtake]
  · intro msg hmsg
    simp [parse_rangeproof_message, hmsg]

/-- Witness for C6 at two concrete 32-byte strings. -/
theorem rangeproof_message_roundtrip_witness :
    (List.replicate 32 1).length = 32 ∧ (List.replicate 32 2).length = 32 ∧
    ((make_rangeproof_message (List.replicate 32 1) (List.replicate 32 2)).length = 64 ∧
     (make_rangeproof_message (List.replicate 32 1) (List.replicate 32 2)).take 32 =
       List.replicate 32 1 ∧
     (make_rangeproof_message (List.replicate 32 1) (List.replicate 32 2)).drop 32 =
       List.replicate 32 2 ∧
     parse_rangeproof_message
       (make_rangeproof_message (List.replicate 32 1) (List.replicate 32 2)) =
       some (List.replicate 32 1, List.replicate 32 2) ∧
     (∀ msg : List Nat, msg.length < 64 → parse_rangeproof_message msg = none)) :=
  ⟨by simp, by simp,
   rangeproof_message_roundtrip (List.replicate 32 1) (List.replicate 32 2)
     (by simp) (by simp)⟩

/-- Claim C9: `liquidex_unblind` returns an error whenever the candidate vout is at least
the number of transaction inputs, whatever the outputs look like: the blinders and the
AES nonce are derived from `tx.input[vout].previous_output`, so an output index is only
accepted when an input exists at that index. -/
theorem liquidex_unblind_requires_input_at_vout (c : Crypto) (mbk : Nat) (tx : CTx)
    (vout : Nat) (assets : List Nat) (h : tx.input.length ≤ vout) :
    liquidex_unblind c mbk tx vout assets = none := by
  unfold liquidex_unblind
  rw [if_pos (Or.inr (by omega))]

/-- Witness for C9: a transaction with one input and two outputs, output 1 fully
confidential, is still rejected at vout 1. -/
theorem liquidex_unblind_requires_input_at_vout_witness :
    c9tx.input.length ≤ 1 ∧ liquidex_unblind toyCrypto 0 c9tx 1 [1] = none :=
  ⟨by decide, liquidex_unblind_requires_input_at_vout toyCrypto 0 c9tx 1 [1] (by decide)⟩

/-- Counterexample to C4 as stated: an addressee with mismatched network parameters and
zero amount makes `create_tx` return `InvalidAddress`, not the `InvalidAmount` the claim
asserts for zero amounts. -/
theorem create_tx_validate_zero_counterexample :
    c4bad.any (fun a => decide (a.satoshi = 0)) = true ∧
    create_tx_validate 0 0 546 c4bad ≠ some CreateTxError.InvalidAmount := by
  decide

/-- Claim C4 (amended): the checks run in source order, so `InvalidAddress` fires on any
network mismatch, `EmptyAddressees` on an empty list, and `InvalidAmount` on a zero
amount or a policy-asset amount at most `DUST_VALUE` — the latter provided every
addressee's network parameters match the wallet's.  In each case the function returns
before building anything. -/
theorem create_tx_validate_cases (wparams policy dust : Nat) (addressees : List Addressee) :
    ((∃ a ∈ addressees, a.params ≠ wparams) →
      create_tx_validate wparams policy dust addressees =
        some CreateTxError.InvalidAddress) ∧
    (addressees = [] →
      create_tx_validate wparams policy dust addressees =
        some CreateTxError.EmptyAddressees) ∧
    ((∀ a ∈ addressees, a.params = wparams) →
      (∃ a ∈ addressees, a.satoshi = 0 ∨ (a.satoshi ≤ dust ∧ a.asset = policy)) →
      create_tx_validate wparams policy dust addressees =
        some CreateTxError.InvalidAmount) := by
  refine ⟨?_, ?_, ?_⟩
  · rintro ⟨a, ha, hne⟩
    have hany : addressees.any (fun a => decide (a.params ≠ wparams)) = true := by
      rw [List.any_eq_true]
      exact ⟨a, ha, by simpa using hne⟩
    unfold create_tx_validate
    rw [if_pos hany]
  · rintro rfl
    rfl
  · intro hall ⟨a, ha, hcase⟩
    have h1 : addressees.any (fun a => decide (a.params ≠ wparams)) = false := by
      rw [List.any_eq_false]
      intro x hx
      simpa using hall x hx
    have hne : addressees.isEmpty = false := by
      cases addressees with
      | nil => cases ha
      | cons _ _ => rfl
    by_cases hz : addressees.any (fun a => decide (a.satoshi = 0)) = true
    · unfold create_tx_validate
      rw [if_neg (by rw [h1]; exact Bool.false_ne_true),
        if_neg (by rw [hne]; exact Bool.false_ne_true), if_pos hz]
    · have h4 : addressees.any (fun a => decide (a.satoshi ≤ dust ∧ a.asset = policy)) =
          true := by
        rw [List.any_eq_true]
        rcases hcase with hzero | hdust
        · exact absurd (by rw [List.any_eq_true]; exact ⟨a, ha, by simpa using hzero⟩) hz
        · exact ⟨a, ha, by simpa using hdust⟩
      unfold create_tx_validate
      rw [if_neg (by rw [h1]; exact Bool.false_ne_true),
        if_neg (by rw [hne]; exact Bool.false_ne_true), if_neg hz, if_pos h4]

/-- Claim C1, failing input: the coin-selection loop of `create_tx` tracks used
**outpoints**, not scripts, so with two 600-unit UTXOs sharing script 7 and a request for
1000 units it selects both, returning an input set with a duplicate script_pubkey —
contradicting the anti-linkability rule stated by the spec and by the source comment at
the selection site. -/
theorem create_tx_selects_duplicate_scripts :
    selectLoop 0 (fun _ => 0) [(0, 1000)] c1utxos 3 [] [] =
      SelResult.ok [⟨2, 7, 0, 600⟩, ⟨1, 7, 0, 600⟩] ∧
    ¬ (([⟨2, 7, 0, 600⟩, ⟨1, 7, 0, 600⟩] : List SelUtxo).map SelUtxo.script).Nodup := by
  decide

/-- Counterexample to C10 as stated: `c10tx` has no fee output and the policy asset (0)
appears in both the input and the output sums, yet `liquidex_fee` still panics — the
policy outputs (10) exceed the policy inputs (5), a `u64` underflow the claim's list of
panic conditions misses. -/
theorem liquidex_fee_underflow_counterexample :
    c10tx.output.any CTxOut.isFee = false ∧
    (0 : Nat) ∈ lqInSupport c10mi c10tx c10ub ∧
    (0 : Nat) ∈ lqOutSupport c10mo c10tx ∧
    liquidex_fee c10mi c10mo c10tx 0 c10ub = none := by
  decide

/-- Claim C10 (amended): the exact panic conditions.  `liquidex_fee` panics exactly when
the transaction already has a fee output, or a non-first output is not fully explicit or
a non-first input lacks unblinded data (helper panics), or the policy asset is absent
from the input or the output sums (`unwrap`), or the policy outputs exceed the policy
inputs (`u64` underflow).  `liquidex_changes` panics exactly when a helper panics, or
some input asset's outputs exceed its inputs (`u64` underflow), or the policy residual is
smaller than the estimated fee (`u64` underflow), or some output asset does not occur
among the inputs (the final `assert!`).  Neither panics otherwise. -/
theorem liquidex_fee_changes_panic_conditions (mi mo : TxOutSecrets) (tx : CTx)
    (fee policy dust : Nat) (ub : Nat → Option TxOutSecrets) :
    (liquidex_fee mi mo tx policy ub = none ↔
      tx.output.any CTxOut.isFee = true ∨
      ¬ (lqOutputsOk tx = true ∧ lqInputsOk tx ub = true) ∨
      ¬ (policy ∈ lqInSupport mi tx ub ∧ policy ∈ lqOutSupport mo tx) ∨
      lqInVal mi tx ub policy < lqOutVal mo tx policy) ∧
    (liquidex_changes mi mo tx fee policy dust ub = none ↔
      ¬ (lqOutputsOk tx = true ∧ lqInputsOk tx ub = true) ∨
      (∃ a ∈ lqInSupport mi tx ub, lqInVal mi tx ub a < lqOutVal mo tx a) ∨
      (policy ∈ lqInSupport mi tx ub ∧
        lqInVal mi tx ub policy - lqOutVal mo tx policy < fee) ∨
      (∃ a ∈ lqOutSupport mo tx, a ∉ lqInSupport mi tx ub)) := by
  constructor
  · unfold liquidex_fee
    by_cases hfee : tx.output.any CTxOut.isFee = true
    · rw [if_pos hfee]
      exact iff_of_true rfl (Or.inl hfee)
    · rw [if_neg hfee]
      by_cases hok : lqOutputsOk tx = true ∧ lqInputsOk tx ub = true
      · rw [if_neg (not_not_intro hok)]
        by_cases hpol : policy ∈ lqInSupport mi tx ub ∧ policy ∈ lqOutSupport mo tx
        · rw [if_neg (not_not_intro hpol)]
          by_cases hlt : lqInVal mi tx ub policy < lqOutVal mo tx policy
          · rw [if_pos hlt]
            exact iff_of_true rfl (Or.inr (Or.inr (Or.inr hlt)))
          · rw [if_neg hlt]
            refine iff_of_false (by simp) ?_
            rintro (h | h | h | h)
            · exact hfee h
            · exact h hok
            · exact h hpol
            · exact hlt h
        · rw [if_pos hpol]
          exact iff_of_true rfl (Or.inr (Or.inr (Or.inl hpol)))
      · rw [if_pos hok]
        exact iff_of_true rfl (Or.inr (Or.inl hok))
  · have hD2 : ((lqInSupport mi tx ub).any
        (fun a => decide (lqInVal mi tx ub a < lqOutVal mo tx a)) = true) ↔
        (∃ a ∈ lqInSupport mi tx ub, lqInVal mi tx ub a < lqOutVal mo tx a) := by
      simp [List.any_eq_true]
    have hD4 : ((lqOutSupport mo tx).any
        (fun a => decide (a ∉ lqInSupport mi tx ub)) = true) ↔
        (∃ a ∈ lqOutSupport mo tx, a ∉ lqInSupport mi tx ub) := by
      simp [List.any_eq_true]
    unfold liquidex_changes
    by_cases hA : lqOutputsOk tx = true ∧ lqInputsOk tx ub = true
    · rw [if_neg (not_not_intro hA)]
      by_cases hB : ((lqInSupport mi tx ub).any
          (fun a => decide (lqInVal mi tx ub a < lqOutVal mo tx a)) = true)
      · rw [if_pos hB]
        exact iff_of_true rfl (Or.inr (Or.inl (hD2.mp hB)))
      · rw [if_neg hB]
        by_cases hC : policy ∈ lqInSupport mi tx ub ∧
            lqInVal mi tx ub policy - lqOutVal mo tx policy < fee
        · rw [if_pos hC]
          exact iff_of_true rfl (Or.inr (Or.inr (Or.inl hC)))
        · rw [if_neg hC]
          by_cases hD : ((lqOutSupport mo tx).any
              (fun a => decide (a ∉ lqInSupport mi tx ub)) = true)
          · rw [if_pos hD]
            exact iff_of_true rfl (Or.inr (Or.inr (Or.inr (hD4.mp hD))))
          · rw [if_neg hD]
            refine iff_of_false (by simp) ?_
            rintro (h | h | h | h)
            · exact h hA
            · exact hB (hD2.mpr h)
            · exact hC h
            · exact hD (hD4.mpr h)
    · rw [if_pos hA]
      exact iff_of_true rfl (Or.inl hA)

/-- Claim C5: under the no-panic conditions, `liquidex_changes` emits, for each asset
among the inputs, a change entry equal to the residual inputs − outputs (with the
estimated fee further subtracted for the policy asset) exactly when the residual is
positive for non-policy assets and exceeds `DUST_VALUE` for the policy asset; a
policy-asset residual not exceeding `DUST_VALUE` produces no entry (it stays with the
fee). -/
theorem liquidex_changes_residuals (mi mo : TxOutSecrets) (tx : CTx)
    (fee policy dust : Nat) (ub : Nat → Option TxOutSecrets)
    (h1 : lqOutputsOk tx = true) (h2 : lqInputsOk tx ub = true)
    (h3 : ∀ a ∈ lqInSupport mi tx ub, lqOutVal mo tx a ≤ lqInVal mi tx ub a)
    (h4 : policy ∈ lqInSupport mi tx ub →
      fee ≤ lqInVal mi tx ub policy - lqOutVal mo tx policy)
    (h5 : ∀ a ∈ lqOutSupport mo tx, a ∈ lqInSupport mi tx ub) :
    ∃ f, liquidex_changes mi mo tx fee policy dust ub = some f ∧
      ∀ a : Nat,
        f a =
          if a ∈ lqInSupport mi tx ub then
            if a = policy then
              if dust < lqInVal mi tx ub a - lqOutVal mo tx a - fee
              then some (lqInVal mi tx ub a - lqOutVal mo tx a - fee) else none
            else
              if 0 < lqInVal mi tx ub a - lqOutVal mo tx a
              then some (lqInVal mi tx ub a - lqOutVal mo tx a) else none
          else none := by
  have hg1 : ¬ ¬ (lqOutputsOk tx = true ∧ lqInputsOk tx ub = true) := not_not_intro ⟨h1, h2⟩
  have hg2 : ¬ ((lqInSupport mi tx ub).any
      (fun a => decide (lqInVal mi tx ub a < lqOutVal mo tx a)) = true) := by
    rw [List.any_eq_true]
    rintro ⟨a, ha, hlt⟩
    rw [decide_eq_true_eq] at hlt
    exact absurd (h3 a ha) (not_le.mpr hlt)
  have hg3 : ¬ (policy ∈ lqInSupport mi tx ub ∧
      lqInVal mi tx ub policy - lqOutVal mo tx policy < fee) := by
    rintro ⟨hp, hlt⟩
    exact absurd (h4 hp) (not_le.mpr hlt)
  have hg4 : ¬ ((lqOutSupport mo tx).any
      (fun a => decide (a ∉ lqInSupport mi tx ub)) = true) := by
    rw [List.any_eq_true]
    rintro ⟨a, ha, hmem⟩
    rw [decide_eq_true_eq] at hmem
    exact hmem (h5 a ha)
  refine ⟨fun a =>
      if a ∈ lqInSupport mi tx ub then
        if a = policy then
          if dust < lqInVal mi tx ub a - lqOutVal mo tx a - fee
          then some (lqInVal mi tx ub a - lqOutVal mo tx a - fee) else none
        else
          if 0 < lqInVal mi tx ub a - lqOutVal mo tx a
          then some (lqInVal mi tx ub a - lqOutVal mo tx a) else none
      else none, ?_, fun a => rfl⟩
  unfold liquidex_changes
  rw [if_neg hg1, if_neg hg2, if_neg hg3, if_neg hg4]

/-- Witness for C5 at a concrete taker state: policy asset 0 with inputs 100, outputs 40,
fee 10, dust 5 (change 50 emitted) and asset 5 with inputs 50, outputs 10 (change 40). -/
theorem liquidex_changes_residuals_witness :
    lqOutputsOk c5tx = true ∧ lqInputsOk c5tx c5ub = true ∧
    (∀ a ∈ lqInSupport c5mi c5tx c5ub, lqOutVal c5mo c5tx a ≤ lqInVal c5mi c5tx c5ub a) ∧
    ((0 : Nat) ∈ lqInSupport c5mi c5tx c5ub →
      10 ≤ lqInVal c5mi c5tx c5ub 0 - lqOutVal c5mo c5tx 0) ∧
    (∀ a ∈ lqOutSupport c5mo c5tx, a ∈ lqInSupport c5mi c5tx c5ub) ∧
    (∃ f, liquidex_changes c5mi c5mo c5tx 10 0 5 c5ub = some f ∧
      ∀ a : Nat,
        f a =
          if a ∈ lqInSupport c5mi c5tx c5ub then
            if a = 0 then
              if 5 < lqInVal c5mi c5tx c5ub a - lqOutVal c5mo c5tx a - 10
              then some (lqInVal c5mi c5tx c5ub a - lqOutVal c5mo c5tx a - 10) else none
            else
              if 0 < lqInVal c5mi c5tx c5ub a - lqOutVal c5mo c5tx a
              then some (lqInVal c5mi c5tx c5ub a - lqOutVal c5mo c5tx a) else none
          else none) :=
  ⟨by decide, by decide, by decide, by decide, by decide,
   liquidex_changes_residuals c5mi c5mo c5tx 10 0 5 c5ub (by decide) (by decide)
     (by decide) (by decide) (by decide)⟩

/-- Claim C3: `verify_output_commitment` returns the declared output secrets exactly when
the proposal's transaction has one input and one output, the proposal declares one input
secret and one output secret, output 0's asset and value are confidential commitments,
and the asset generator and Pedersen commitment recomputed from the declared secrets
equal those of output 0; and replacing the declared output secrets by any whose
recomputed commitments differ from the transaction's is rejected with an error. -/
theorem verify_output_commitment_spec (c : Crypto) (p : LiquidexProposal)
    (s : TxOutSecrets) :
    (verify_output_commitment c p = some s ↔
      p.tx.input.length = 1 ∧ p.tx.output.length = 1 ∧ p.inputs.length = 1 ∧
      p.outputs.length = 1 ∧ p.outputs.get? 0 = some s ∧
      (∃ txo, p.tx.output.get? 0 = some txo ∧
        txo.asset = CAsset.confidential (c.genBlinded s.asset s.asset_bf) ∧
        txo.value = CValue.confidential
          (c.pedersen s.value s.value_bf (c.genBlinded s.asset s.asset_bf)))) ∧
    (∀ s' : TxOutSecrets, ∀ txo, p.tx.output.get? 0 = some txo →
      (txo.asset ≠ CAsset.confidential (c.genBlinded s'.asset s'.asset_bf) ∨
       txo.value ≠ CValue.confidential
         (c.pedersen s'.value s'.value_bf (c.genBlinded s'.asset s'.asset_bf))) →
      verify_output_commitment c ⟨p.version, p.tx, p.inputs, [s']⟩ ≠ some s') := by
  have key : ∀ (q : LiquidexProposal) (t : TxOutSecrets),
      verify_output_commitment c q = some t ↔
        q.tx.input.length = 1 ∧ q.tx.output.length = 1 ∧ q.inputs.length = 1 ∧
        q.outputs.length = 1 ∧ q.outputs.get? 0 = some t ∧
        (∃ txo, q.tx.output.get? 0 = some txo ∧
          txo.asset = CAsset.confidential (c.genBlinded t.asset t.asset_bf) ∧
          txo.value = CValue.confidential
            (c.pedersen t.value t.value_bf (c.genBlinded t.asset t.asset_bf))) := by
    intro q t
    obtain ⟨qv, qtx, qins, qouts⟩ := q
    obtain ⟨qti, qto⟩ := qtx
    by_cases hlen : qti.length ≠ 1 ∨ qto.length ≠ 1 ∨ qins.length ≠ 1 ∨ qouts.length ≠ 1
    · unfold verify_output_commitment
      rw [if_pos hlen]
      refine iff_of_false (by simp) ?_
      rintro ⟨e1, e2, e3, e4, -, -⟩
      rcases hlen with h | h | h | h
      · exact h e1
      · exact h e2
      · exact h e3
      · exact h e4
    · have hlen' := hlen
      push_neg at hlen'
      obtain ⟨h1, h2, h3, h4⟩ := hlen'
      obtain ⟨txo, rfl⟩ := List.length_eq_one.mp h2
      obtain ⟨o, rfl⟩ := List.length_eq_one.mp h4
      unfold verify_output_commitment
      rw [if_neg hlen]
      rcases txo with ⟨ta, tv, tn, ts⟩
      cases ta with
      | confidential g =>
        cases tv with
        | confidential vc =>
          simp only [List.get?_cons_zero]
          by_cases hcm : c.genBlinded o.asset o.asset_bf ≠ g ∨
              c.pedersen o.value o.value_bf (c.genBlinded o.asset o.asset_bf) ≠ vc
          · rw [if_pos hcm]
            refine iff_of_false (by simp) ?_
            rintro ⟨-, -, -, -, hts, txo', htxo', hta, htv⟩
            simp only [List.get?_cons_zero, Option.some.injEq] at hts htxo'
            subst hts
            subst htxo'
            simp only [CAsset.confidential.injEq] at hta
            simp only [CValue.confidential.injEq] at htv
            rcases hcm with h | h
            · exact h hta.symm
            · exact h htv.symm
          · rw [if_neg hcm]
            push_neg at hcm
            obtain ⟨hg, hvc⟩ := hcm
            constructor
            · intro ho
              simp only [Option.some.injEq] at ho
              subst ho
              refine ⟨h1, rfl, h3, rfl, rfl, ⟨⟨CAsset.confidential g,
                CValue.confidential vc, tn, ts⟩, rfl, ?_, ?_⟩⟩
              · rw [← hg]
              · rw [← hvc, ← hg]
            · rintro ⟨-, -, -, -, hts, txo', htxo', -, -⟩
              simp only [List.get?_cons_zero, Option.some.injEq] at hts
              rw [hts]
        | explicit n =>
          refine iff_of_false (by simp) ?_
          rintro ⟨-, -, -, -, -, txo', htxo', -, htv⟩
          simp only [List.get?_cons_zero, Option.some.injEq] at htxo'
          subst htxo'
          exact CValue.noConfusion htv
        | null =>
          refine iff_of_false (by simp) ?_
          rintro ⟨-, -, -, -, -, txo', htxo', -, htv⟩
          simp only [List.get?_cons_zero, Option.some.injEq] at htxo'
          subst htxo'
          exact CValue.noConfusion htv
      | explicit n =>
        refine iff_of_false (by simp) ?_
        rintro ⟨-, -, -, -, -, txo', htxo', hta, -⟩
        simp only [List.get?_cons_zero, Option.some.injEq] at htxo'
        subst htxo'
        exact CAsset.noConfusion hta
      | null =>
        refine iff_of_false (by simp) ?_
        rintro ⟨-, -, -, -, -, txo', htxo', hta, -⟩
        simp only [List.get?_cons_zero, Option.some.injEq] at htxo'
        subst htxo'
        exact CAsset.noConfusion hta
  refine ⟨key p s, ?_⟩
  intro s' txo hget hne hver
  rcases (key ⟨p.version, p.tx, p.inputs, [s']⟩ s').mp hver with
    ⟨-, -, -, -, -, txo', htxo', hta, htv⟩
  rw [hget] at htxo'
  injection htxo' with h
  subst h
  rcases hne with h | h
  · exact h hta
  · exact h htv

theorem liquidex_nonce_loop_spec (c : Crypto) (key n v : Nat) (tape : List (List Nat))
    (nc : List Nat) (h : liquidex_nonce_loop c key n v tape = some nc) :
    ∃ r ∈ tape, ∃ pk, c.pkFromSlice (2 :: c.aesEnc key n (leBytes8 v ++ r)) = some pk ∧
      nc = c.pkSerialize pk := by
  induction tape with
  | nil => exact absurd h (by simp [liquidex_nonce_loop])
  | cons r rest ih =>
    simp only [liquidex_nonce_loop] at h
    cases hpk : c.pkFromSlice (2 :: c.aesEnc key n (leBytes8 v ++ r)) with
    | some pk =>
      rw [hpk] at h
      simp only [Option.some.injEq] at h
      exact ⟨r, List.mem_cons_self r rest, pk, hpk, h.symm⟩
    | none =>
      rw [hpk] at h
      obtain ⟨r', hr', pk, hpk', hnc⟩ := ih h
      exact ⟨r', List.mem_cons_of_mem r hr', pk, hpk', hnc⟩

theorem find_eq_some_of_unique {p : Nat → Bool} {x : Nat} :
    ∀ {l : List Nat}, x ∈ l → p x = true → (∀ y ∈ l, p y = true → y = x) →
      l.find? p = some x := by
  intro l
  induction l with
  | nil => intro hx _ _; cases hx
  | cons b rest ih =>
    intro hx hpx huniq
    by_cases hpb : p b = true
    · have hbx : b = x := huniq b (List.mem_cons_self b rest) hpb
      rw [List.find?_cons_of_pos _ hpb, hbx]
    · rw [List.find?_cons_of_neg _ (by simpa using hpb)]
      have hx' : x ∈ rest := by
        rcases List.mem_cons.mp hx with h | h
        · exact absurd hpx (by rw [h]; exact hpb)
        · exact h
      exact ih hx' hpx (fun y hy hpy => huniq y (List.mem_cons_of_mem _ hy) hpy)

/-- Claim C2: for every master blinding key and every single-input transaction whose
output 0 carries an explicit asset and an explicit value, if `liquidex_blind` succeeds
and returns secrets `s`, then `liquidex_unblind` applied to the blinded transaction at
vout 0, with any asset set containing output 0's asset, succeeds and returns secrets
equal to `s`: the same asset, amount, asset blinder and value blinder. -/
theorem liquidex_blind_unblind_roundtrip (c : Crypto) (mbk op a v : Nat) (nc0 : CNonce)
    (scr : List Nat) (tape : List (List Nat)) (assets : List Nat) (tx' : CTx)
    (s : TxOutSecrets)
    (htape : ∀ r ∈ tape, r.length = 8)
    (hv : v < 2 ^ 64)
    (hblind : liquidex_blind c mbk
        ⟨[op], [⟨CAsset.explicit a, CValue.explicit v, nc0, scr⟩]⟩ tape = some (tx', s))
    (hmem : a ∈ assets) :
    liquidex_unblind c mbk tx' 0 assets = some s := by
  simp only [liquidex_blind, liquidex_aes_nonce] at hblind
  set AB := liquidex_derive_asset_blinder c mbk op with hAB
  set VB := liquidex_derive_value_blinder c mbk op with hVB
  set G := c.genBlinded a AB with hG
  set VC := c.pedersen v VB G with hVC
  set KEY := c.aesKey mbk scr with hKEY
  set AN := c.aesNonceOf mbk op G VC scr with hAN
  cases hloop : liquidex_nonce_loop c KEY AN v tape with
  | none =>
    simp only [hloop] at hblind
    exact absurd hblind (by simp)
  | some ncm =>
    simp only [hloop] at hblind
    cases hpk : c.pkFromSlice ncm with
    | none =>
      simp only [hpk] at hblind
      exact absurd hblind (by simp)
    | some pk =>
      simp only [hpk, Option.some.injEq, Prod.mk.injEq] at hblind
      obtain ⟨htx, hs⟩ := hblind
      subst htx
      subst hs
      obtain ⟨r, hrmem, pk0, hpk0, hncm⟩ := liquidex_nonce_loop_spec c KEY AN v tape ncm hloop
      have hser0 : c.pkSerialize pk0 = 2 :: c.aesEnc KEY AN (leBytes8 v ++ r) :=
        c.pk_roundtrip _ _ hpk0
      rw [hncm, hser0] at hpk
      have hpk_eq : pk = pk0 := by
        rw [hpk] at hpk0
        exact Option.some.inj hpk0
      have hser : c.pkSerialize pk = 2 :: c.aesEnc KEY AN (leBytes8 v ++ r) := by
        rw [hpk_eq, hser0]
      have htext : (leBytes8 v ++ r).length = 16 := by
        simp [leBytes8, leBytesAux_length, htape r hrmem]
      unfold liquidex_unblind
      rw [if_neg (by simp)]
      simp only [List.get?_cons_zero, liquidex_aes_nonce]
      rw [hser]
      simp only [List.drop_succ_cons, List.drop_zero]
      rw [c.aes_roundtrip KEY AN (leBytes8 v ++ r) htext]
      split
      next heq => exact absurd heq (by simp)
      next plain heq =>
        obtain rfl : leBytes8 v ++ r = plain := Option.some.inj heq
        rw [if_neg (by simp [htext])]
        rw [leDecode8_leBytes8 v r hv]
        rw [if_neg (by simp [hVC, hVB])]
        rw [find_eq_some_of_unique hmem (by simp [hG, hAB])
          (fun y _ hpy => c.gen_inj y a _ (by simpa [hG, hAB] using hpy))]

/-- Witness for C2: the concrete maker transaction `c2tx` under `toyCrypto` blinds to
`c2tx'` with secrets `c2secrets`, and unblinding at vout 0 with asset set containing
asset 1 recovers exactly those secrets. -/
theorem liquidex_blind_unblind_roundtrip_witness :
    (∀ r ∈ c2tape, r.length = 8) ∧ (10 : Nat) < 2 ^ 64 ∧
    liquidex_blind toyCrypto 0 c2tx c2tape = some (c2tx', c2secrets) ∧
    (1 : Nat) ∈ [1] ∧
    liquidex_unblind toyCrypto 0 c2tx' 0 [1] = some c2secrets :=
  ⟨by decide, by decide, by decide, by decide,
   liquidex_blind_unblind_roundtrip toyCrypto 0 0 1 10 CNonce.null [81] c2tape [1]
     c2tx' c2secrets (by decide) (by decide) (by decide) (by decide)⟩

end BEWallet
